import Mathlib

/-!
# baton-tableau: license table and HTTP wrapper

A shallow embedding of

* `pkg/connector/license.go` (the static role table, `licenseContainsRole`, `Grants`), and
* `vendor/github.com/conductorone/baton-sdk/pkg/uhttp/wrapper.go`
  (`NewRequest`, `Do` and the provided request / response options),

followed by the properties proved about them.

Conventions of the embedding:

* a Go `map[string]T` is an association list with pairwise distinct keys (`GoMap T`);
* a Go `error` is `Option GoError`, `none` being `nil`;
* a Go `string` and a `[]byte` are both the Lean string of their bytes, a byte being a
  character of that string, so that `string(b)` is the identity; a Go `int` is an `Int`;
* a closure that may touch caller-owned variables is a function threading a state `σ`.
-/

set_option autoImplicit false

/-- A Go map with string keys: finitely many entries, keys pairwise distinct. -/
abbrev GoMap (α : Type) := AList (fun _ : String => α)

/-- The gRPC status codes of `google.golang.org/grpc/codes`. -/
inductive Codes where
  | OK | Canceled | Unknown | InvalidArgument | DeadlineExceeded | NotFound
  | AlreadyExists | PermissionDenied | ResourceExhausted | FailedPrecondition
  | Aborted | OutOfRange | Unimplemented | Internal | Unavailable | DataLoss
  | Unauthenticated
  deriving DecidableEq, Repr

/-- The name printed for a status code (`codes.Code.String`). -/
def Codes.String : Codes → String
  | .OK => "OK"
  | .Canceled => "Canceled"
  | .Unknown => "Unknown"
  | .InvalidArgument => "InvalidArgument"
  | .DeadlineExceeded => "DeadlineExceeded"
  | .NotFound => "NotFound"
  | .AlreadyExists => "AlreadyExists"
  | .PermissionDenied => "PermissionDenied"
  | .ResourceExhausted => "ResourceExhausted"
  | .FailedPrecondition => "FailedPrecondition"
  | .Aborted => "Aborted"
  | .OutOfRange => "OutOfRange"
  | .Unimplemented => "Unimplemented"
  | .Internal => "Internal"
  | .Unavailable => "Unavailable"
  | .DataLoss => "DataLoss"
  | .Unauthenticated => "Unauthenticated"

/-- A non-nil Go error value: either a plain text error (`fmt.Errorf`, `errors.New`, and the
errors of collaborators) or a gRPC status error (`status.Error`). -/
inductive GoError where
  | errorString (text : String)
  | status (code : Codes) (desc : String)
  deriving DecidableEq, Repr

/-- The text of an error (its `Error()` method). A gRPC status error prints its code and its
description after a fixed prefix. -/
def GoError.Error : GoError → String
  | .errorString text => text
  | .status code desc => "rpc error: code = " ++ code.String ++ " desc = " ++ desc

/-- The description carried by a gRPC status error (`status.Convert(err).Message()`); for a
plain error it is the text. -/
def GoError.Message : GoError → String
  | .errorString text => text
  | .status _ desc => desc

/-- The verb `%d` of `fmt` applied to an `int`. -/
def fmtD (n : Int) : String := toString n

namespace Connector

/-- The nine role-name constants of package `connector` that `license.go` refers to. They are
declared in another file of the package, so the table below takes them as a parameter. -/
structure RoleNames where
  creator : String
  explorer : String
  viewer : String
  unlicensed : String
  siteAdministratorCreator : String
  siteAdministratorExplorer : String
  explorerCanPublish : String
  readOnly : String
  siteAdministrator : String

/-- The nine constants, in the order in which `RolesPerLicense` lists them. -/
def RoleNames.all (c : RoleNames) : List String :=
  [c.siteAdministratorCreator, c.creator,
   c.siteAdministratorExplorer, c.explorerCanPublish, c.explorer, c.readOnly,
   c.siteAdministrator, c.viewer, c.unlicensed]

/-- Embeds `var licences = []string{creator, explorer, viewer, unlicensed}`. -/
def licences (c : RoleNames) : List String :=
  [c.creator, c.explorer, c.viewer, c.unlicensed]

/-- Embeds `var RolesPerLicense = map[string][]string{...}`: the literal's entries, written in the
order of the source. -/
def RolesPerLicense (c : RoleNames) : GoMap (List String) :=
  AList.insert c.unlicensed [c.unlicensed]
    (AList.insert c.viewer [c.viewer]
      (AList.insert c.explorer
          [c.siteAdministratorExplorer, c.explorerCanPublish, c.explorer, c.readOnly,
           c.siteAdministrator]
        (AList.insert c.creator [c.siteAdministratorCreator, c.creator] ∅)))

/-- The loop of `licenseContainsRole`: scan the slice for a value equal to the role. -/
def licenseContainsRole.scan (role : String) : List String → Bool
  | [] => false
  | value :: rest => if value = role then true else licenseContainsRole.scan role rest

/-- Embeds `func licenseContainsRole(license string, role string, licencesMap map[string][]string) bool`. -/
def licenseContainsRole (license role : String) (licencesMap : GoMap (List String)) : Bool :=
  match licencesMap.lookup license with
  | none => false
  | some slice => licenseContainsRole.scan role slice

/-- A resource identifier (`v2.ResourceId`). -/
structure ResourceId where
  ResourceType : String
  Resource : String
  deriving DecidableEq, Repr

/-- The fields of `v2.Resource` that `Grants` reads. -/
structure Resource where
  Id : ResourceId
  DisplayName : String
  deriving DecidableEq, Repr

/-- Modelled from the spec: the platform user record of package `tableau`, declared outside
`license.go`; a user carries an identifier and a site role, and `Grants` reads only the role. -/
structure User where
  ID : String
  SiteRole : String
  deriving DecidableEq, Repr

/-- A grant as built by `grant.NewGrant(resource, entitlement, principal)`. -/
structure Grant where
  Resource : Resource
  Entitlement : String
  Principal : ResourceId
  deriving DecidableEq, Repr

/-- The loop of `Grants` over the fetched users, `rv` being the grants collected so far. The
first failure of `userResource` ends the call with that error. -/
def Grants.loop (c : RoleNames) (memberEntitlement : String)
    (userResource : User → ResourceId → Except GoError Resource) (resource : Resource) :
    List User → List Grant → Except GoError (List Grant)
  | [], rv => .ok rv
  | user :: rest, rv =>
    match userResource user resource.Id with
    | .error err => .error err
    | .ok ur =>
      if licenseContainsRole resource.DisplayName user.SiteRole (RolesPerLicense c) then
        Grants.loop c memberEntitlement userResource resource rest
          (rv ++ [⟨resource, memberEntitlement, ur.Id⟩])
      else
        Grants.loop c memberEntitlement userResource resource rest rv

/-- Embeds `func (l *licenseResourceType) Grants(ctx, resource, pt)`: the outcome of
`GetPaginatedUsers`, the helper `userResource` and the constant `memberEntitlement` come from
other files of the repository and are parameters. -/
def Grants (c : RoleNames) (memberEntitlement : String)
    (GetPaginatedUsers : Except GoError (List User))
    (userResource : User → ResourceId → Except GoError Resource) (resource : Resource) :
    Except GoError (List Grant) :=
  match GetPaginatedUsers with
  | .error err => .error err
  | .ok users => Grants.loop c memberEntitlement userResource resource users []

/-- The role names used by the platform, for concrete evaluation. -/
def tableauNames : RoleNames where
  creator := "Creator"
  explorer := "Explorer"
  viewer := "Viewer"
  unlicensed := "Unlicensed"
  siteAdministratorCreator := "SiteAdministratorCreator"
  siteAdministratorExplorer := "SiteAdministratorExplorer"
  explorerCanPublish := "ExplorerCanPublish"
  readOnly := "ReadOnly"
  siteAdministrator := "SiteAdministrator"

/-- The one-license table quoted by the specification. -/
def explorerTable : GoMap (List String) :=
  AList.insert "Explorer"
    ["SiteAdministratorExplorer", "ExplorerCanPublish", "Explorer", "ReadOnly",
     "SiteAdministrator"] ∅

end Connector

namespace Uhttp

/-- Embeds `http.Header`, a `map[string][]string`. -/
abbrev Header := GoMap (List String)

/-- The bytes allowed in a header field name (`validHeaderFieldByte` of `net/textproto`):
ASCII letters and digits and the fifteen token punctuation marks. -/
def validHeaderFieldByte (c : Char) : Bool :=
  c.isAlphanum || [33, 35, 36, 37, 38, 39, 42, 43, 45, 46, 94, 95, 96, 124, 126].contains c.toNat

/-- The rewriting loop of `canonicalMIMEHeaderKey`: upper case for the first letter and for a
letter after a dash, lower case for every other letter. -/
def canonicalMIMEHeaderKey.loop : Bool → List Char → List Char
  | _, [] => []
  | upper, c :: rest =>
    let c' := if upper && c.isLower then c.toUpper
              else if !upper && c.isUpper then c.toLower else c
    c' :: canonicalMIMEHeaderKey.loop (c' == '-') rest

/-- Embeds `textproto.CanonicalMIMEHeaderKey` of the Go standard library, which `http.Header.Set`
and `http.Header.Get` apply to their key: a key made of valid field bytes only is put in
canonical case, any other key is returned unchanged. -/
def CanonicalMIMEHeaderKey (s : String) : String :=
  if s.data.all validHeaderFieldByte then String.mk (canonicalMIMEHeaderKey.loop true s.data)
  else s

/-- Embeds `func (h Header) Set(key, value string)`: the entry of the canonical key becomes the
one-element slice holding the value. -/
def Header.Set (h : Header) (key value : String) : Header :=
  AList.insert (CanonicalMIMEHeaderKey key) [value] h

/-- Embeds `func (h Header) Get(key string) string`: the first value stored under the canonical
key, or the empty string. -/
def Header.Get (h : Header) (key : String) : String :=
  match h.lookup (CanonicalMIMEHeaderKey key) with
  | some (v :: _) => v
  | _ => ""

/-- The entries visited by `for k, v := range m`; Go leaves the order unspecified, so the
order is a parameter: a rearrangement of the entries. -/
def rangeMap (order : List (String × String) → List (String × String)) (m : GoMap String) :
    List (String × String) :=
  order (m.entries.map (fun e => (e.1, e.2)))

/-- A `bytes.Buffer`: the contents and the read offset. -/
structure Buffer where
  buf : List Char
  off : Nat
  deriving DecidableEq, Repr

/-- Embeds `bytes.NewBuffer(body)`. -/
def NewBuffer (body : String) : Buffer := ⟨body.data, 0⟩

/-- Embeds `func (b *Buffer) Len() int`: the number of unread bytes. -/
def Buffer.Len (b : Buffer) : Nat := b.buf.length - b.off

/-- Embeds `func (b *Buffer) empty() bool`. -/
def Buffer.empty (b : Buffer) : Bool := decide (b.buf.length ≤ b.off)

/-- Embeds `func (b *Buffer) Reset()`. -/
def Buffer.Reset (_b : Buffer) : Buffer := ⟨[], 0⟩

/-- Embeds `func (b *Buffer) Read(p []byte) (n int, err error)` for a destination of length `n`:
the bytes copied, whether the error is `io.EOF`, and the buffer afterwards. -/
def Buffer.Read (b : Buffer) (n : Nat) : List Char × Bool × Buffer :=
  if b.empty then
    if n = 0 then ([], false, b.Reset) else ([], true, b.Reset)
  else
    let p := (b.buf.drop b.off).take n
    (p, false, { b with off := b.off + p.length })

/-- The loop of `io.ReadAll` on a buffer: read 512-byte chunks until `io.EOF`. Every round
before the last consumes at least one byte, so `steps` rounds suffice when `steps` exceeds
the number of unread bytes. -/
def Buffer.ReadAll.loop : Nat → Buffer → List Char → List Char × Buffer
  | 0, b, acc => (acc, b)
  | steps + 1, b, acc =>
    match b.Read 512 with
    | (p, true, b') => (acc ++ p, b')
    | (p, false, b') => Buffer.ReadAll.loop steps b' (acc ++ p)

/-- Embeds `io.ReadAll(b)` for a `*bytes.Buffer`. -/
def Buffer.ReadAll (b : Buffer) : String × Buffer :=
  let r := Buffer.ReadAll.loop (b.Len + 1) b []
  (String.mk r.1, r.2)

/-- An `io.ReadCloser` holding a response body: either the stream handed over by the
transport, described by the outcome of reading it to its end and of closing it, or the
`io.NopCloser` around a buffer that `Do` installs. -/
inductive ReadCloser where
  | stream (content : Except GoError String) (closeErr : Option GoError)
  | nopCloser (b : Buffer)

/-- Embeds `io.ReadAll(rc)`: the outcome and the reader afterwards. -/
def ReadCloser.ReadAll : ReadCloser → Except GoError String × ReadCloser
  | .stream content closeErr => (content, .stream (.ok "") closeErr)
  | .nopCloser b => (.ok b.ReadAll.1, .nopCloser b.ReadAll.2)

/-- Embeds `rc.Close()`. -/
def ReadCloser.Close : ReadCloser → Option GoError
  | .stream _ closeErr => closeErr
  | .nopCloser _ => none

/-- The contents returned by `n` successive complete reads of a body. -/
def ReadCloser.reads : Nat → ReadCloser → List (Except GoError String)
  | 0, _ => []
  | n + 1, rc => rc.ReadAll.1 :: ReadCloser.reads n rc.ReadAll.2

/-- The fields of `http.Response` that the wrapper touches. -/
structure Response where
  Header : Header
  Status : String
  StatusCode : Int
  Body : ReadCloser

/-- Embeds `type WrapperResponse struct`. -/
structure WrapperResponse where
  Header : Header
  Body : String
  Status : String
  StatusCode : Int
  deriving DecidableEq

/-- Embeds `DoOption func(resp *WrapperResponse) error`: a closure over caller-owned variables of
type `σ`; it receives the snapshot by pointer, so it returns the snapshot as it leaves it.
(Writes through the header map or the byte array that the snapshot shares with the response
are outside the embedding; no option of the package performs one.) -/
abbrev DoOption (σ : Type) := WrapperResponse → σ → (WrapperResponse × σ) × Option GoError

/-- Embeds `RequestOption func() (io.ReadWriter, map[string]string, error)`: a closure over
variables of type `σ`, returning a body of type `β` or `nil`, a header map and an error. -/
abbrev RequestOption (σ β : Type) := σ → σ × (Option β × GoMap String × Option GoError)

/-- Embeds `status.Error(c, msg)` of gRPC: `nil` for the code `OK`, a status error otherwise. -/
def statusError (c : Codes) (msg : String) : Option GoError :=
  if c = Codes.OK then none else some (GoError.status c msg)

/-- Embeds `func WithJSONResponse(response interface{}) DoOption`; `unmarshal` is `json.Unmarshal`
into the caller's destination of type `ρ`. -/
def WithJSONResponse {ρ : Type} (unmarshal : String → ρ → ρ × Option GoError) : DoOption ρ :=
  fun resp response => ((resp, (unmarshal resp.Body response).1), (unmarshal resp.Body response).2)

/-- The outcome of a call that may panic: the call returns a value, or it panics and returns
nothing. -/
inductive Outcome (α : Type) where
  | returned (a : α)
  | panicked
  deriving DecidableEq, Repr

/-- Embeds `func WithErrorResponse(resource ErrorResponse) DoOption`. The captured variable
`resource` is an interface value: `none` is the nil interface and `some v` holds the dynamic
value `v` of type `ρ`. `IsJSONContentType` is the helper of package `helpers`; `unmarshal` is
`json.Unmarshal(resp.Body, &resource)`, which returns the new content of the variable (for the
JSON body `null` it reports no error and sets the variable to nil); `Message` is the method
`Message()` of a dynamic value. Calling `resource.Message()` on the nil interface panics, so
the call of the option has an `Outcome`. -/
def WithErrorResponse {ρ : Type} (IsJSONContentType : String → Bool)
    (unmarshal : String → Option ρ → Option ρ × Option GoError) (Message : ρ → String) :
    WrapperResponse → Option ρ → Outcome ((WrapperResponse × Option ρ) × Option GoError) :=
  fun resp resource =>
    if resp.StatusCode < 300 then .returned ((resp, resource), none)
    else if !IsJSONContentType (resp.Header.Get "Content-Type") then
      .returned ((resp, resource), some (GoError.errorString resp.Body))
    else
      match unmarshal resp.Body resource with
      | (resource', some _) =>
        .returned
          ((resp, resource'), statusError Codes.Unknown "Request failed with unknown error")
      | (none, none) => .panicked
      | (some v, none) =>
        let errMsg := "Request failed with status " ++ fmtD resp.StatusCode ++ ": " ++
          Message v
        .returned ((resp, some v), statusError Codes.Unknown errMsg)

/-- A `timestamppb.Timestamp`. -/
structure Timestamp where
  Seconds : Int
  Nanos : Int
  deriving DecidableEq, Repr

/-- The message `v2.RateLimitDescription` of the SDK, declared outside `wrapper.go`: the three
fields that `WithRatelimitData` writes, and `Status` for the field it does not write. -/
structure RateLimitDescription where
  Status : Nat
  Limit : Int
  Remaining : Int
  ResetAt : Option Timestamp
  deriving DecidableEq, Repr

/-- Embeds `func WithRatelimitData(resource *v2.RateLimitDescription) DoOption`;
`ExtractRateLimitData` is the extractor of package `helpers`. -/
def WithRatelimitData (ExtractRateLimitData : Header → Except GoError RateLimitDescription) :
    DoOption RateLimitDescription :=
  fun resp resource =>
    match ExtractRateLimitData resp.Header with
    | .error err => ((resp, resource), some err)
    | .ok rl =>
      ((resp, { resource with Limit := rl.Limit, Remaining := rl.Remaining,
                              ResetAt := rl.ResetAt }), none)

/-- The loop of `Do` over the response options: the snapshot and the caller's state after
the options that ran, and the error of the first option that failed. -/
def Do.loop {σ : Type} : List (DoOption σ) → WrapperResponse → σ →
    (WrapperResponse × σ) × Option GoError
  | [], wresp, s => ((wresp, s), none)
  | option :: rest, wresp, s =>
    match option wresp s with
    | (ws, some err) => (ws, some err)
    | (ws, none) => Do.loop rest ws.1 ws.2

/-- Embeds `func (c *BaseHttpClient) Do(req, options...)`: `roundTrip` is the outcome of
`c.HttpClient.Do(req)`. The result is the caller's state and the returned pair. -/
def Do {σ : Type} (roundTrip : Except GoError Response) (options : List (DoOption σ)) (s : σ) :
    σ × Option Response × Option GoError :=
  match roundTrip with
  | .error err => (s, none, some err)
  | .ok resp =>
    match resp.Body.ReadAll.1 with
    | .error err => (s, none, some err)
    | .ok body =>
      match resp.Body.ReadAll.2.Close with
      | some err => (s, none, some err)
      | none =>
        let resp' : Response := { resp with Body := ReadCloser.nopCloser (NewBuffer body) }
        let wresp : WrapperResponse :=
          { Header := resp'.Header, Status := resp'.Status, StatusCode := resp'.StatusCode,
            Body := body }
        match Do.loop options wresp s with
        | (ws, some err) => (ws.2, some resp', some err)
        | (ws, none) =>
          if resp'.StatusCode < 200 ∨ resp'.StatusCode ≥ 300 then
            (ws.2, some resp',
              some (GoError.errorString ("unexpected status code: " ++ fmtD resp'.StatusCode)))
          else (ws.2, some resp', none)

/-- Embeds `func WithAcceptJSONHeader() RequestOption`. -/
def WithAcceptJSONHeader {σ β : Type} : RequestOption σ β :=
  fun s => (s, (none, AList.singleton "Accept" "application/json", none))

/-- Embeds `func WithContentTypeJSONHeader() RequestOption`. -/
def WithContentTypeJSONHeader {σ β : Type} : RequestOption σ β :=
  fun s => (s, (none, AList.singleton "Content-Type" "application/json", none))

/-- Embeds `func WithJSONBody(body interface{}) RequestOption`; `encode` is the outcome of
`json.NewEncoder(buffer).Encode(body)` on a fresh buffer. -/
def WithJSONBody {σ β : Type} (encode : Except GoError β) : RequestOption σ β :=
  fun s =>
    match encode with
    | .error err => (s, (none, ∅, some err))
    | .ok buffer =>
      match (@WithContentTypeJSONHeader σ β s).2 with
      | (_, _, some err) => (s, (none, ∅, some err))
      | (_, headers, none) => (s, (some buffer, headers, none))

/-- The fields of `http.Request` that the wrapper touches. -/
structure Request (β : Type) where
  Method : String
  URL : String
  Header : Header
  Body : Option β

/-- Embeds `http.NewRequestWithContext(ctx, method, url, body)` of the Go standard library:
`validate` stands for its checks of the context, the method and the URL; an accepted request
has an empty header and the given body, and an empty method means `GET`. -/
def NewRequestWithContext {β : Type} (validate : String → String → Option GoError)
    (method url : String) (body : Option β) : Except GoError (Request β) :=
  match validate method url with
  | some err => .error err
  | none => .ok { Method := if method = "" then "GET" else method, URL := url, Header := ∅,
                  Body := body }

/-- The first loop of `NewRequest`: `buffer` and `headers` are the local variables. -/
def NewRequest.loop {σ β : Type} (order : List (String × String) → List (String × String)) :
    List (RequestOption σ β) → σ → Option β → GoMap String →
    σ × Except GoError (Option β × GoMap String)
  | [], s, buffer, headers => (s, .ok (buffer, headers))
  | option :: rest, s, buffer, headers =>
    match option s with
    | (s', (_, _, some err)) => (s', .error err)
    | (s', (buf, h, none)) =>
      NewRequest.loop order rest s'
        (match buf with
         | some b => some b
         | none => buffer)
        ((rangeMap order h).foldl (fun m kv => AList.insert kv.1 kv.2 m) headers)

/-- Embeds `func (c *BaseHttpClient) NewRequest(ctx, method, url, options...)`. The result is the
state of the options' variables and the returned pair. -/
def NewRequest {σ β : Type} (order : List (String × String) → List (String × String))
    (validate : String → String → Option GoError) (method url : String)
    (options : List (RequestOption σ β)) (s : σ) : σ × Option (Request β) × Option GoError :=
  match NewRequest.loop order options s none ∅ with
  | (s', .error err) => (s', none, some err)
  | (s', .ok (buffer, headers)) =>
    match NewRequestWithContext validate method url buffer with
    | .error err => (s', none, some err)
    | .ok req =>
      (s', some { req with
          Header := (rangeMap order headers).foldl (fun h kv => Header.Set h kv.1 kv.2)
            req.Header }, none)

/-- The outputs of the request options when they are evaluated one after the other from the
state `s`, whatever they return. -/
def evalOptions {σ β : Type} : List (RequestOption σ β) → σ →
    List (Option β × GoMap String × Option GoError)
  | [], _ => []
  | option :: rest, s => (option s).2 :: evalOptions rest (option s).1

/-- The state of the options' variables after all of them have been evaluated. -/
def evalState {σ β : Type} : List (RequestOption σ β) → σ → σ
  | [], s => s
  | option :: rest, s => evalState rest (option s).1

/-- The value that the last output supplying the header key `k` gives for it. -/
def lastHeader {β : Type} : List (Option β × GoMap String × Option GoError) → String →
    Option String
  | [], _ => none
  | out :: rest, k =>
    match lastHeader rest k with
    | some v => some v
    | none => out.2.1.lookup k

/-- The body of the last output that returns one. -/
def lastBody {β : Type} : List (Option β × GoMap String × Option GoError) → Option β
  | [] => none
  | out :: rest =>
    match lastBody rest with
    | some b => some b
    | none => out.1

/-- The snapshot and the caller's state after applying the response options one after the
other, whatever they return. -/
def runOptions {σ : Type} : List (DoOption σ) → WrapperResponse → σ → WrapperResponse × σ
  | [], w, s => (w, s)
  | option :: rest, w, s => runOptions rest (option w s).1.1 (option w s).1.2

/-- Every response option of the list returns no error when the options are applied one after
the other from the snapshot `w` and the state `s`. -/
def OptionsSucceed {σ : Type} : List (DoOption σ) → WrapperResponse → σ → Prop
  | [], _, _ => True
  | option :: rest, w, s =>
    (option w s).2 = none ∧ OptionsSucceed rest (option w s).1.1 (option w s).1.2

/-- A response option that records its number in the caller's log and returns `err`. -/
def logOption (i : Nat) (err : Option GoError) : DoOption (List Nat) :=
  fun w log => ((w, log ++ [i]), err)

/-- A response as the transport hands it over: the given status code, a content type, and a
body stream that delivers `body` and closes without error. -/
def received (code : Int) (contentType body : String) : Response :=
  { Header := AList.singleton "Content-Type" [contentType], Status := fmtD code,
    StatusCode := code, Body := ReadCloser.stream (.ok body) none }

/-- A request option that records its number in a log and returns no body, no header and
`err`. -/
def logRequestOption (i : Nat) (err : Option GoError) : RequestOption (List Nat) String :=
  fun log => (log ++ [i], (none, ∅, err))

/-- A request option supplying the single header `key: value` and no body. -/
def headerOption (key value : String) : RequestOption Unit String :=
  fun s => (s, (none, AList.singleton key value, none))

/-- A request option supplying the body `body` and the single header `key: value`. -/
def bodyOption (body key value : String) : RequestOption Unit String :=
  fun s => (s, (some body, AList.singleton key value, none))

/-- A validation for concrete evaluation: every method and URL is accepted. -/
def acceptAll (_method _url : String) : Option GoError := none

/-- A content-type test for concrete evaluation: exactly `application/json`. -/
def isApplicationJSON (contentType : String) : Bool := decide (contentType = "application/json")

/-- An error value for concrete evaluation: a record with a `message` field. -/
structure apiError where
  message : String
  deriving DecidableEq, Repr

/-- A decoder for concrete evaluation, following `json.Unmarshal` into an interface variable on
three kinds of input: the body `null` sets the variable to nil and reports no error; the
document `\x7b"message":"quota exceeded"\x7d` is decoded into the value that a non-nil
variable holds; everything else is an error that leaves the variable as it was. -/
def decodeQuota (body : String) (dst : Option apiError) : Option apiError × Option GoError :=
  if body = "null" then (none, none)
  else
    match dst with
    | none => (none, some (GoError.errorString "json: cannot unmarshal into Go value"))
    | some d =>
      if body = "\x7b\"message\":\"quota exceeded\"\x7d" then (some ⟨"quota exceeded"⟩, none)
      else (some d, some (GoError.errorString "invalid character"))

/-- A rate-limit extractor for concrete evaluation: it fails when the header map is empty and
otherwise reports a fixed description. -/
def extractFixed (h : Header) : Except GoError RateLimitDescription :=
  if h.keys = [] then .error (GoError.errorString "strconv.ParseInt: invalid syntax")
  else .ok ⟨1, 100, 42, some ⟨1700000000, 0⟩⟩

/-- The snapshot that `Do` takes of a response whose body holds `body`. -/
def snapshot (resp : Response) (body : String) : WrapperResponse :=
  { Header := resp.Header, Status := resp.Status, StatusCode := resp.StatusCode, Body := body }

/-- The response that `Do` returns for `resp` once `body` has been read from it. -/
def buffered (resp : Response) (body : String) : Response :=
  { resp with Body := ReadCloser.nopCloser (NewBuffer body) }

end Uhttp

namespace Connector

theorem scan_eq_true (role : String) (slice : List String) :
    licenseContainsRole.scan role slice = true ↔ role ∈ slice := by
  induction slice with
  | nil => simp [licenseContainsRole.scan]
  | cons value rest ih =>
    by_cases h : value = role
    · simp [licenseContainsRole.scan, h]
    · have h2 : ¬ role = value := fun e => h e.symm
      simp [licenseContainsRole.scan, h, h2, ih]

theorem licenseContainsRole_iff (license role : String) (m : GoMap (List String)) :
    licenseContainsRole license role m = true ↔
      ∃ slice, m.lookup license = some slice ∧ role ∈ slice := by
  unfold licenseContainsRole
  cases h : m.lookup license with
  | none => simp
  | some slice => simp [scan_eq_true]

theorem Grants_loop_ok (c : RoleNames) (member : String)
    (userResource : User → ResourceId → Except GoError Resource) (resource : Resource)
    (users : List User) (rv : List Grant)
    (hur : ∀ u ∈ users, ∃ ur, userResource u resource.Id = .ok ur) :
    Grants.loop c member userResource resource users rv =
      .ok (rv ++ users.filterMap (fun u =>
        if licenseContainsRole resource.DisplayName u.SiteRole (RolesPerLicense c) then
          match userResource u resource.Id with
          | .ok ur => some ⟨resource, member, ur.Id⟩
          | .error _ => none
        else none)) := by
  induction users generalizing rv with
  | nil => simp [Grants.loop]
  | cons u rest ih =>
    have hrest : ∀ v ∈ rest, ∃ ur, userResource v resource.Id = .ok ur :=
      fun v hv => hur v (List.mem_cons_of_mem _ hv)
    obtain ⟨ur, hu⟩ := hur u (List.mem_cons_self _ _)
    by_cases hc : licenseContainsRole resource.DisplayName u.SiteRole (RolesPerLicense c) = true
    · simp [Grants.loop, hu, hc, ih _ hrest, List.filterMap_cons]
    · simp [Grants.loop, hu, hc, ih _ hrest, List.filterMap_cons]

/-- C8: `licenseContainsRole(l, r, m)` is true exactly when `l` is a key of `m` and `r` occurs
in the slice `m[l]`; when every user resource can be built, `Grants` returns, in the order of
the users, one grant for each user whose site role is listed under the license of the
resource and none for the others; with the one-license table of the specification the role
`ReadOnly` is accepted for `Explorer` and the role `Unlicensed` is not. -/
theorem licenseContainsRole_spec (license role : String) (m : GoMap (List String))
    (c : RoleNames) (member : String) (users : List User)
    (userResource : User → ResourceId → Except GoError Resource) (resource : Resource)
    (hur : ∀ u ∈ users, ∃ ur, userResource u resource.Id = .ok ur) :
    (licenseContainsRole license role m = true ↔
      ∃ slice, m.lookup license = some slice ∧ role ∈ slice) ∧
    Grants c member (.ok users) userResource resource =
      .ok (users.filterMap (fun u =>
        if licenseContainsRole resource.DisplayName u.SiteRole (RolesPerLicense c) then
          match userResource u resource.Id with
          | .ok ur => some ⟨resource, member, ur.Id⟩
          | .error _ => none
        else none)) ∧
    licenseContainsRole "Explorer" "ReadOnly" explorerTable = true ∧
    licenseContainsRole "Explorer" "Unlicensed" explorerTable = false := by
  refine ⟨licenseContainsRole_iff license role m, ?_, by decide, by decide⟩
  simp only [Grants]
  rw [Grants_loop_ok c member userResource resource users [] hur]
  simp

/-- C8, at a concrete input: the license `Explorer` and two users, one with the role
`ReadOnly` and one with the role `Unlicensed`; only the first is granted. -/
theorem licenseContainsRole_spec_witness :
    (∀ u ∈ [(⟨"u1", "ReadOnly"⟩ : User), ⟨"u2", "Unlicensed"⟩],
      ∃ ur, (fun (v : User) (_ : ResourceId) =>
        (.ok ⟨⟨"user", v.ID⟩, v.ID⟩ : Except GoError Resource)) u ⟨"license", "explorer"⟩
          = .ok ur) ∧
    Grants tableauNames "member" (.ok [⟨"u1", "ReadOnly"⟩, ⟨"u2", "Unlicensed"⟩])
      (fun v _ => .ok ⟨⟨"user", v.ID⟩, v.ID⟩) ⟨⟨"license", "explorer"⟩, "Explorer"⟩ =
      .ok [⟨⟨⟨"license", "explorer"⟩, "Explorer"⟩, "member", ⟨"user", "u1"⟩⟩] := by
  have hur : ∀ u ∈ [(⟨"u1", "ReadOnly"⟩ : User), ⟨"u2", "Unlicensed"⟩],
      ∃ ur, (fun (v : User) (_ : ResourceId) =>
        (.ok ⟨⟨"user", v.ID⟩, v.ID⟩ : Except GoError Resource)) u ⟨"license", "explorer"⟩
          = .ok ur := fun u _ => ⟨_, rfl⟩
  refine ⟨hur, ?_⟩
  rw [(licenseContainsRole_spec "Explorer" "ReadOnly" explorerTable tableauNames "member"
    [⟨"u1", "ReadOnly"⟩, ⟨"u2", "Unlicensed"⟩] (fun v _ => .ok ⟨⟨"user", v.ID⟩, v.ID⟩)
    ⟨⟨"license", "explorer"⟩, "Explorer"⟩ hur).2.1]
  rfl

theorem RolesPerLicense_lookup (c : RoleNames) (hd : c.all.Nodup) :
    (RolesPerLicense c).lookup c.creator = some [c.siteAdministratorCreator, c.creator] ∧
    (RolesPerLicense c).lookup c.explorer =
      some [c.siteAdministratorExplorer, c.explorerCanPublish, c.explorer, c.readOnly,
        c.siteAdministrator] ∧
    (RolesPerLicense c).lookup c.viewer = some [c.viewer] ∧
    (RolesPerLicense c).lookup c.unlicensed = some [c.unlicensed] := by
  obtain ⟨a1, a2, a3, a4, a5, a6, a7, a8, a9⟩ := c
  simp only [RoleNames.all, List.nodup_cons, List.mem_cons, List.mem_singleton, not_or,
    List.not_mem_nil, not_false_eq_true, List.nodup_nil, and_true] at hd
  simp only [RolesPerLicense]
  obtain ⟨⟨h1, h2, h3, h4, h5, h6, h7, h8⟩, ⟨g1, g2, g3, g4, g5, g6, g7⟩,
    ⟨k1, k2, k3, k4, k5, k6⟩, ⟨l1, l2, l3, l4, l5⟩, ⟨m1, m2, m3, m4⟩, ⟨n1, n2, n3⟩,
    ⟨o1, o2⟩, p1⟩ := hd
  refine ⟨?_, ?_, ?_, ?_⟩
  · rw [AList.lookup_insert_ne g7, AList.lookup_insert_ne g6, AList.lookup_insert_ne g3,
      AList.lookup_insert]
  · rw [AList.lookup_insert_ne m4, AList.lookup_insert_ne m3, AList.lookup_insert]
  · rw [AList.lookup_insert_ne p1, AList.lookup_insert]
  · rw [AList.lookup_insert]

/-- C10: when the nine role-name constants are pairwise distinct, every entry of `licences`
is a key of `RolesPerLicense`, the role lists of two different licenses share no role, a role
is accepted by `licenseContainsRole` for at most one license of `licences`, and the name of
each license is a role of that license. -/
theorem RolesPerLicense_disjoint (c : RoleNames) (hd : c.all.Nodup) :
    (∀ l ∈ licences c, ∃ slice, (RolesPerLicense c).lookup l = some slice) ∧
    (∀ l₁ ∈ licences c, ∀ l₂ ∈ licences c, l₁ ≠ l₂ → ∀ s₁ s₂,
      (RolesPerLicense c).lookup l₁ = some s₁ → (RolesPerLicense c).lookup l₂ = some s₂ →
      ∀ r, r ∈ s₁ → r ∉ s₂) ∧
    (∀ r, ∀ l₁ ∈ licences c, ∀ l₂ ∈ licences c,
      licenseContainsRole l₁ r (RolesPerLicense c) = true →
      licenseContainsRole l₂ r (RolesPerLicense c) = true → l₁ = l₂) ∧
    (∀ l ∈ licences c, licenseContainsRole l l (RolesPerLicense c) = true) := by
  obtain ⟨hc, he, hv, hu⟩ := RolesPerLicense_lookup c hd
  have hdis : ∀ l₁ ∈ licences c, ∀ l₂ ∈ licences c, l₁ ≠ l₂ → ∀ s₁ s₂,
      (RolesPerLicense c).lookup l₁ = some s₁ → (RolesPerLicense c).lookup l₂ = some s₂ →
      ∀ r, r ∈ s₁ → r ∉ s₂ := by
    obtain ⟨a1, a2, a3, a4, a5, a6, a7, a8, a9⟩ := c
    simp only [RoleNames.all, List.nodup_cons, List.mem_cons, List.mem_singleton, not_or,
      List.not_mem_nil, not_false_eq_true, List.nodup_nil, and_true] at hd
    obtain ⟨⟨h1, h2, h3, h4, h5, h6, h7, h8⟩, ⟨g1, g2, g3, g4, g5, g6, g7⟩,
      ⟨k1, k2, k3, k4, k5, k6⟩, ⟨l1, l2, l3, l4, l5⟩, ⟨m1, m2, m3, m4⟩, ⟨n1, n2, n3⟩,
      ⟨o1, o2⟩, p1⟩ := hd
    intro l₁ h₁ l₂ h₂ hne s₁ s₂ e₁ e₂ r hr₁ hr₂
    simp only [licences, List.mem_cons, List.mem_singleton, List.not_mem_nil, or_false] at h₁ h₂
    rcases h₁ with rfl | rfl | rfl | rfl <;> rcases h₂ with rfl | rfl | rfl | rfl <;>
      first
      | exact hne rfl
      | (simp only [hc, he, hv, hu, Option.some.injEq] at e₁ e₂
         subst e₁; subst e₂
         simp only [List.mem_cons, List.mem_singleton, List.not_mem_nil, or_false] at hr₁ hr₂
         rcases hr₁ with rfl | rfl | rfl | rfl | rfl <;>
           rcases hr₂ with h | h | h | h | h <;>
           simp_all)
  refine ⟨?_, hdis, ?_, ?_⟩
  · intro l hl
    simp only [licences, List.mem_cons, List.mem_singleton, List.not_mem_nil, or_false] at hl
    rcases hl with rfl | rfl | rfl | rfl
    · exact ⟨_, hc⟩
    · exact ⟨_, he⟩
    · exact ⟨_, hv⟩
    · exact ⟨_, hu⟩
  · intro r l₁ h₁ l₂ h₂ t₁ t₂
    by_contra hne
    obtain ⟨s₁, e₁, m₁⟩ := (licenseContainsRole_iff l₁ r _).1 t₁
    obtain ⟨s₂, e₂, m₂⟩ := (licenseContainsRole_iff l₂ r _).1 t₂
    exact hdis l₁ h₁ l₂ h₂ hne s₁ s₂ e₁ e₂ r m₁ m₂
  · intro l hl
    simp only [licences, List.mem_cons, List.mem_singleton, List.not_mem_nil, or_false] at hl
    rcases hl with rfl | rfl | rfl | rfl
    · exact (licenseContainsRole_iff _ _ _).2 ⟨_, hc, by simp⟩
    · exact (licenseContainsRole_iff _ _ _).2 ⟨_, he, by simp⟩
    · exact (licenseContainsRole_iff _ _ _).2 ⟨_, hv, by simp⟩
    · exact (licenseContainsRole_iff _ _ _).2 ⟨_, hu, by simp⟩

/-- C10, at the role names of the platform. -/
theorem RolesPerLicense_disjoint_witness :
    tableauNames.all.Nodup ∧
    (∀ r, ∀ l₁ ∈ licences tableauNames, ∀ l₂ ∈ licences tableauNames,
      licenseContainsRole l₁ r (RolesPerLicense tableauNames) = true →
      licenseContainsRole l₂ r (RolesPerLicense tableauNames) = true → l₁ = l₂) :=
  ⟨by decide, (RolesPerLicense_disjoint tableauNames (by decide)).2.2.1⟩

end Connector

namespace Uhttp

theorem Do_loop_succeed {σ : Type} (options : List (DoOption σ)) (w : WrapperResponse) (s : σ)
    (h : OptionsSucceed options w s) :
    Do.loop options w s = (runOptions options w s, none) := by
  induction options generalizing w s with
  | nil => rfl
  | cons o rest ih =>
    obtain ⟨h1, h2⟩ := h
    have e : o w s = ((o w s).1, none) := Prod.ext rfl h1
    simp only [Do.loop, runOptions]
    rw [e]
    exact ih _ _ h2

theorem Do_loop_fail {σ : Type} (pre : List (DoOption σ)) (o : DoOption σ)
    (post : List (DoOption σ)) (w : WrapperResponse) (s : σ) (err : GoError)
    (hpre : OptionsSucceed pre w s)
    (ho : (o (runOptions pre w s).1 (runOptions pre w s).2).2 = some err) :
    Do.loop (pre ++ o :: post) w s =
      ((o (runOptions pre w s).1 (runOptions pre w s).2).1, some err) := by
  induction pre generalizing w s with
  | nil =>
    simp only [runOptions] at ho
    have e : o w s = ((o w s).1, some err) := Prod.ext rfl ho
    simp only [List.nil_append, Do.loop, runOptions]
    rw [e]
  | cons p rest ih =>
    obtain ⟨h1, h2⟩ := hpre
    have e : p w s = ((p w s).1, none) := Prod.ext rfl h1
    simp only [List.cons_append, Do.loop, runOptions]
    rw [e]
    exact ih _ _ h2 ho

theorem Do_ok {σ : Type} (resp : Response) (body : String) (options : List (DoOption σ))
    (s : σ) (hread : resp.Body.ReadAll.1 = .ok body)
    (hclose : resp.Body.ReadAll.2.Close = none) :
    Do (.ok resp) options s =
      match Do.loop options (snapshot resp body) s with
      | (ws, some err) => (ws.2, some (buffered resp body), some err)
      | (ws, none) =>
        if resp.StatusCode < 200 ∨ resp.StatusCode ≥ 300 then
          (ws.2, some (buffered resp body),
            some (GoError.errorString ("unexpected status code: " ++ fmtD resp.StatusCode)))
        else (ws.2, some (buffered resp body), none) := by
  simp only [Do, hread, hclose, snapshot, buffered]

/-- C2: after a successful round trip, when the response options all return no error (the
empty list included), `Do` returns no error exactly when the status code is in [200,300);
for a status code outside that range it returns the response together with the error whose
text is `unexpected status code: ` followed by the decimal status code. -/
theorem Do_status_check {σ : Type} (resp : Response) (body : String)
    (options : List (DoOption σ)) (s : σ)
    (hread : resp.Body.ReadAll.1 = .ok body) (hclose : resp.Body.ReadAll.2.Close = none)
    (hopts : OptionsSucceed options (snapshot resp body) s) :
    ((Do (.ok resp) options s).2.2 = none ↔
      (200 ≤ resp.StatusCode ∧ resp.StatusCode < 300)) ∧
    (¬ (200 ≤ resp.StatusCode ∧ resp.StatusCode < 300) →
      ∃ err, (Do (.ok resp) options s).2 = (some (buffered resp body), some err) ∧
        err.Error = "unexpected status code: " ++ fmtD resp.StatusCode ∧
        (fmtD resp.StatusCode).data <:+: err.Error.data) := by
  rw [Do_ok resp body options s hread hclose, Do_loop_succeed options _ s hopts]
  by_cases hc : resp.StatusCode < 200 ∨ resp.StatusCode ≥ 300
  · have hn : ¬ (200 ≤ resp.StatusCode ∧ resp.StatusCode < 300) := by omega
    simp only [hc, if_true, hn, iff_false, not_false_eq_true, true_implies]
    refine ⟨by simp, _, rfl, rfl, ?_⟩
    simp only [GoError.Error, String.data_append]
    exact (List.suffix_append _ _).isInfix
  · have hy : 200 ≤ resp.StatusCode ∧ resp.StatusCode < 300 := by omega
    simp [hc, hy]

/-- C2, at concrete inputs: with one succeeding option, the status code 404 gives an error
and the status code 204 gives none. -/
theorem Do_status_check_witness :
    (Do (.ok (received 404 "text/plain" "nope")) [logOption 1 none] []).2.2 ≠ none ∧
    (Do (.ok (received 204 "text/plain" "")) [logOption 1 none] []).2.2 = none :=
  ⟨fun h => absurd
      ((Do_status_check (received 404 "text/plain" "nope") "nope" [logOption 1 none] []
        rfl rfl ⟨rfl, trivial⟩).1.1 h) (by decide),
   (Do_status_check (received 204 "text/plain" "") "" [logOption 1 none] []
        rfl rfl ⟨rfl, trivial⟩).1.2 (by decide)⟩

/-- C3: after a successful round trip, when the options of `pre` return no error and the next
option `o` returns the error `err`, `Do` leaves the caller's state as it is after applying
the options of `pre` in order and then `o` (no option of `post` is applied) and returns the
response together with `err` itself, whatever the status code is. -/
theorem Do_first_failure {σ : Type} (resp : Response) (body : String)
    (pre : List (DoOption σ)) (o : DoOption σ) (post : List (DoOption σ)) (s : σ)
    (err : GoError)
    (hread : resp.Body.ReadAll.1 = .ok body) (hclose : resp.Body.ReadAll.2.Close = none)
    (hpre : OptionsSucceed pre (snapshot resp body) s)
    (ho : (o (runOptions pre (snapshot resp body) s).1
             (runOptions pre (snapshot resp body) s).2).2 = some err) :
    Do (.ok resp) (pre ++ o :: post) s =
      ((o (runOptions pre (snapshot resp body) s).1
          (runOptions pre (snapshot resp body) s).2).1.2,
        some (buffered resp body), some err) := by
  rw [Do_ok resp body _ s hread hclose, Do_loop_fail pre o post _ s err hpre ho]

/-- C3, at a concrete input: three logging options of which the second fails, on a response
with the status code 200; the log holds the first two options only. -/
theorem Do_first_failure_witness :
    Do (.ok (received 200 "text/plain" "ok"))
        [logOption 1 none, logOption 2 (some (GoError.errorString "bad payload")),
         logOption 3 none] [] =
      ([1, 2], some (buffered (received 200 "text/plain" "ok") "ok"),
        some (GoError.errorString "bad payload")) :=
  Do_first_failure (received 200 "text/plain" "ok") "ok" [logOption 1 none]
    (logOption 2 (some (GoError.errorString "bad payload"))) [logOption 3 none] []
    (GoError.errorString "bad payload") rfl rfl ⟨rfl, trivial⟩ rfl

theorem Buffer_ReadAll_loop_spec (steps : Nat) (b : Buffer) (acc : List Char)
    (h : b.Len < steps) :
    Buffer.ReadAll.loop steps b acc = (acc ++ b.buf.drop b.off, ⟨[], 0⟩) := by
  induction steps generalizing b acc with
  | zero => omega
  | succ n ih =>
    by_cases he : b.buf.length ≤ b.off
    · simp [Buffer.ReadAll.loop, Buffer.Read, Buffer.empty, he, Buffer.Reset,
        List.drop_eq_nil_of_le he]
    · have hlen : 0 < (b.buf.drop b.off).length := by
        rw [List.length_drop]; omega
      simp only [Buffer.ReadAll.loop, Buffer.Read, Buffer.empty, he, decide_False,
        Bool.false_eq_true, if_false]
      rw [ih]
      · simp only [List.append_assoc, Prod.mk.injEq, List.append_cancel_left_eq, and_true]
        rw [← List.drop_drop, List.length_take]
        by_cases hk : 512 ≤ (b.buf.drop b.off).length
        · rw [Nat.min_eq_left hk, List.take_append_drop]
        · have hk2 : (b.buf.drop b.off).length ≤ 512 := by omega
          rw [Nat.min_eq_right hk2, List.take_of_length_le hk2, List.drop_length,
            List.append_nil]
      · simp only [Buffer.Len, List.length_take, List.length_drop] at *
        omega

theorem Buffer_ReadAll_spec (b : Buffer) :
    b.ReadAll = (String.mk (b.buf.drop b.off), ⟨[], 0⟩) := by
  simp only [Buffer.ReadAll]
  rw [Buffer_ReadAll_loop_spec _ b [] (Nat.lt_succ_self _)]
  simp

theorem reads_drained (n : Nat) :
    (ReadCloser.nopCloser ⟨[], 0⟩).reads n = List.replicate n (.ok "") := by
  induction n with
  | zero => rfl
  | succ k ih =>
    simp only [ReadCloser.reads, ReadCloser.ReadAll, Buffer_ReadAll_spec, List.replicate_succ]
    rw [ih]
    rfl

/-- C4, as amended: after a successful round trip `Do` returns a response whose body yields,
on the first complete read, the full bytes received from the network, and on every later
complete read no bytes at all. -/
theorem Do_body_read_once {σ : Type} (resp : Response) (body : String)
    (options : List (DoOption σ)) (s : σ)
    (hread : resp.Body.ReadAll.1 = .ok body) (hclose : resp.Body.ReadAll.2.Close = none) :
    ∃ resp', (Do (.ok resp) options s).2.1 = some resp' ∧
      ∀ n, resp'.Body.reads (n + 1) = .ok body :: List.replicate n (.ok "") := by
  refine ⟨buffered resp body, ?_, ?_⟩
  · rw [Do_ok resp body options s hread hclose]
    rcases hl : Do.loop options (snapshot resp body) s with ⟨ws, _ | err⟩
    · by_cases hc : resp.StatusCode < 200 ∨ resp.StatusCode ≥ 300 <;> simp [hc]
    · rfl
  · intro n
    simp only [buffered, ReadCloser.reads, ReadCloser.ReadAll, Buffer_ReadAll_spec, NewBuffer,
      List.drop_zero]
    rw [reads_drained]

/-- C4, the amended claim at a concrete input: a body of five bytes read three times. -/
theorem Do_body_read_once_witness :
    ∃ resp', (Do (.ok (received 200 "text/plain" "hello")) [logOption 1 none] []).2.1
        = some resp' ∧
      ∀ n, resp'.Body.reads (n + 1) = .ok "hello" :: List.replicate n (.ok "") :=
  Do_body_read_once (received 200 "text/plain" "hello") "hello" [logOption 1 none] [] rfl rfl

/-- C4 fails as stated: for a received body `hello` and no options, the second complete read
of the returned body yields the empty byte sequence, not the content of the first read. -/
theorem Do_second_read_empty :
    ∃ resp', (Do (.ok (received 200 "text/plain" "hello")) ([] : List (DoOption Unit)) ()).2.1
        = some resp' ∧
      resp'.Body.reads 2 = [.ok "hello", .ok ""] :=
  ⟨_, rfl, rfl⟩

/-- C6, as amended: the error-response option returns no error exactly when the status code
is below 300 (so also for every code below 200). For a status code from 300 on it returns the
raw body text as an error when the content type is not JSON, the unknown-error when the
content type is JSON and decoding fails, and the detailed status error when the content type is
JSON and decoding leaves a non-nil error value; and every error it returns is one of these. -/
theorem WithErrorResponse_no_error_iff {ρ : Type} (IsJSONContentType : String → Bool)
    (unmarshal : String → Option ρ → Option ρ × Option GoError) (Message : ρ → String)
    (resp : WrapperResponse) (r : Option ρ) :
    ((∃ ws, WithErrorResponse IsJSONContentType unmarshal Message resp r =
        .returned (ws, none)) ↔ resp.StatusCode < 300) ∧
    (resp.StatusCode < 300 →
      WithErrorResponse IsJSONContentType unmarshal Message resp r =
        .returned ((resp, r), none)) ∧
    (300 ≤ resp.StatusCode → IsJSONContentType (resp.Header.Get "Content-Type") = false →
      WithErrorResponse IsJSONContentType unmarshal Message resp r =
        .returned ((resp, r), some (GoError.errorString resp.Body))) ∧
    (300 ≤ resp.StatusCode → IsJSONContentType (resp.Header.Get "Content-Type") = true →
      ∀ r' uerr, unmarshal resp.Body r = (r', some uerr) →
      WithErrorResponse IsJSONContentType unmarshal Message resp r =
        .returned ((resp, r'),
          some (GoError.status Codes.Unknown "Request failed with unknown error"))) ∧
    (300 ≤ resp.StatusCode → IsJSONContentType (resp.Header.Get "Content-Type") = true →
      ∀ v, unmarshal resp.Body r = (some v, none) →
      WithErrorResponse IsJSONContentType unmarshal Message resp r =
        .returned ((resp, some v),
          some (GoError.status Codes.Unknown ("Request failed with status " ++
            fmtD resp.StatusCode ++ ": " ++ Message v)))) ∧
    (∀ ws e, WithErrorResponse IsJSONContentType unmarshal Message resp r =
        .returned (ws, some e) →
      300 ≤ resp.StatusCode ∧
      ((IsJSONContentType (resp.Header.Get "Content-Type") = false ∧
          e = GoError.errorString resp.Body) ∨
       (IsJSONContentType (resp.Header.Get "Content-Type") = true ∧
          (e = GoError.status Codes.Unknown "Request failed with unknown error" ∨
           ∃ v, unmarshal resp.Body r = (some v, none) ∧
             e = GoError.status Codes.Unknown ("Request failed with status " ++
               fmtD resp.StatusCode ++ ": " ++ Message v))))) := by
  by_cases hc : resp.StatusCode < 300
  · have hn : ¬ 300 ≤ resp.StatusCode := by omega
    refine ⟨⟨fun _ => hc, fun _ => ⟨(resp, r), ?_⟩⟩, fun _ => ?_, fun h => absurd h hn,
      fun h => absurd h hn, fun h => absurd h hn, fun ws e h => ?_⟩
    · simp [WithErrorResponse, hc]
    · simp [WithErrorResponse, hc]
    · simp [WithErrorResponse, hc] at h
  · have hge : 300 ≤ resp.StatusCode := by omega
    by_cases hj : IsJSONContentType (resp.Header.Get "Content-Type") = true
    · rcases hu : unmarshal resp.Body r with ⟨_ | v, _ | uerr⟩ <;>
        simp [WithErrorResponse, hc, hj, hu, hge, statusError, eq_comm]
    · simp only [Bool.not_eq_true] at hj
      simp [WithErrorResponse, hc, hj, hge, eq_comm]

/-- C6 fails as stated: on a response with the status code 101, which lies outside [200,300),
the error-response option returns no error. -/
theorem WithErrorResponse_informational :
    WithErrorResponse isApplicationJSON decodeQuota apiError.message
        (snapshot (received 101 "text/plain" "switching") "switching") (some ⟨""⟩) =
      .returned ((snapshot (received 101 "text/plain" "switching") "switching", some ⟨""⟩),
        none) ∧
    ¬ (200 ≤ (101 : Int) ∧ (101 : Int) < 300) :=
  ⟨rfl, by decide⟩

/-- When the status code is 300 or more, the content type is JSON, and decoding reports no
error but leaves the captured error value nil (as the JSON body `null` does), the call of
`Message` on the nil value panics: the option returns nothing. -/
theorem WithErrorResponse_nil_value_panics {ρ : Type} (IsJSONContentType : String → Bool)
    (unmarshal : String → Option ρ → Option ρ × Option GoError) (Message : ρ → String)
    (resp : WrapperResponse) (r : Option ρ) (h300 : 300 ≤ resp.StatusCode)
    (hj : IsJSONContentType (resp.Header.Get "Content-Type") = true)
    (hu : unmarshal resp.Body r = (none, none)) :
    WithErrorResponse IsJSONContentType unmarshal Message resp r = .panicked := by
  have hc : ¬ resp.StatusCode < 300 := by omega
  simp [WithErrorResponse, hc, hj, hu]

/-- The panic at a concrete input: the status code 500 with the JSON body `null`. -/
theorem WithErrorResponse_null_body :
    WithErrorResponse isApplicationJSON decodeQuota apiError.message
        (snapshot (received 500 "application/json" "null") "null") (some ⟨""⟩) = .panicked :=
  WithErrorResponse_nil_value_panics isApplicationJSON decodeQuota apiError.message
    (snapshot (received 500 "application/json" "null") "null") (some ⟨""⟩) (by decide)
    (by decide) (by decide)

/-- C7, as amended: on a response with a status code from 300 on, the error-response option
returns an error in the following two cases. When the content type is not JSON, the text of
the error is exactly the raw body text. When it is JSON and the body decodes into a non-nil
error value `v` of the caller, the error is the status error with the code `Unknown` whose
description is `Request failed with status <code>: <m>`, `m` being the message of `v`; its
text is that description after the prefix of gRPC status errors, and contains both the
decimal status code and `m`. -/
theorem WithErrorResponse_text {ρ : Type} (IsJSONContentType : String → Bool)
    (unmarshal : String → Option ρ → Option ρ × Option GoError) (Message : ρ → String)
    (resp : WrapperResponse) (r : Option ρ) (h300 : 300 ≤ resp.StatusCode) :
    (IsJSONContentType (resp.Header.Get "Content-Type") = false →
      ∃ e, WithErrorResponse IsJSONContentType unmarshal Message resp r =
          .returned ((resp, r), some e) ∧
        e.Error = resp.Body) ∧
    (IsJSONContentType (resp.Header.Get "Content-Type") = true →
      ∀ v, unmarshal resp.Body r = (some v, none) →
      ∃ e, WithErrorResponse IsJSONContentType unmarshal Message resp r =
          .returned ((resp, some v), some e) ∧
        e = GoError.status Codes.Unknown ("Request failed with status " ++
          fmtD resp.StatusCode ++ ": " ++ Message v) ∧
        e.Error = "rpc error: code = Unknown desc = " ++ ("Request failed with status " ++
          fmtD resp.StatusCode ++ ": " ++ Message v) ∧
        (fmtD resp.StatusCode).data <:+: e.Error.data ∧
        (Message v).data <:+: e.Error.data) := by
  have hc : ¬ resp.StatusCode < 300 := by omega
  refine ⟨fun hj => ⟨GoError.errorString resp.Body, ?_, rfl⟩,
    fun hj v hu => ⟨_, ?_, rfl, rfl, ?_, ?_⟩⟩
  · simp [WithErrorResponse, hc, hj]
  · simp [WithErrorResponse, hc, hj, hu, statusError]
  · simp only [GoError.Error, Codes.String, String.data_append, List.append_assoc]
    exact (List.infix_append' _ _ _).trans ((List.suffix_append _ _).isInfix.trans
      ((List.suffix_append _ _).isInfix.trans (List.suffix_append _ _).isInfix))
  · simp only [GoError.Error, Codes.String, String.data_append, List.append_assoc]
    exact (List.suffix_append _ _).isInfix.trans ((List.suffix_append _ _).isInfix.trans
      ((List.suffix_append _ _).isInfix.trans ((List.suffix_append _ _).isInfix.trans
        ((List.suffix_append _ _).isInfix.trans (List.suffix_append _ _).isInfix))))

/-- C7, the amended claim at the inputs of the specification: the status code 500 with a
plain-text body, and the status code 429 with the JSON body
`\x7b"message":"quota exceeded"\x7d`. -/
theorem WithErrorResponse_text_witness :
    (∃ e, WithErrorResponse isApplicationJSON decodeQuota apiError.message
        (snapshot (received 500 "text/plain" "upstream exploded") "upstream exploded")
        (some ⟨""⟩) =
          .returned ((snapshot (received 500 "text/plain" "upstream exploded")
            "upstream exploded", some ⟨""⟩), some e) ∧
      e.Error = "upstream exploded") ∧
    (∃ e, WithErrorResponse isApplicationJSON decodeQuota apiError.message
        (snapshot (received 429 "application/json" "\x7b\"message\":\"quota exceeded\"\x7d")
          "\x7b\"message\":\"quota exceeded\"\x7d") (some ⟨""⟩) =
          .returned ((snapshot
            (received 429 "application/json" "\x7b\"message\":\"quota exceeded\"\x7d")
            "\x7b\"message\":\"quota exceeded\"\x7d", some ⟨"quota exceeded"⟩), some e) ∧
      e.Error =
        "rpc error: code = Unknown desc = Request failed with status 429: quota exceeded") := by
  refine ⟨?_, ?_⟩
  · exact (WithErrorResponse_text isApplicationJSON decodeQuota apiError.message
      (snapshot (received 500 "text/plain" "upstream exploded") "upstream exploded")
      (some ⟨""⟩) (by decide)).1 (by decide)
  · obtain ⟨e, h1, _, h3, _⟩ := (WithErrorResponse_text isApplicationJSON decodeQuota
      apiError.message
      (snapshot (received 429 "application/json" "\x7b\"message\":\"quota exceeded\"\x7d")
        "\x7b\"message\":\"quota exceeded\"\x7d") (some ⟨""⟩) (by decide)).2 (by decide)
      ⟨"quota exceeded"⟩ (by decide)
    refine ⟨e, h1, ?_⟩
    rw [h3]
    decide

/-- C7 fails as stated: the status code 199 lies outside [200,300), and on a response with
that code, a JSON content type and a body that decodes, the error-response option returns no
error, so there is no error text. -/
theorem WithErrorResponse_no_text_below_200 :
    WithErrorResponse isApplicationJSON decodeQuota apiError.message
        (snapshot (received 199 "application/json" "\x7b\"message\":\"quota exceeded\"\x7d")
          "\x7b\"message\":\"quota exceeded\"\x7d") (some ⟨""⟩) =
      .returned ((snapshot
        (received 199 "application/json" "\x7b\"message\":\"quota exceeded\"\x7d")
        "\x7b\"message\":\"quota exceeded\"\x7d", some ⟨""⟩), none) ∧
    ¬ (200 ≤ (199 : Int) ∧ (199 : Int) < 300) :=
  ⟨rfl, by decide⟩

/-- C9: when the rate-limit extractor fails on the response headers, the rate-limit option
returns that error and leaves the destination (and the snapshot) unchanged; when the extractor
succeeds, the option returns no error and the destination holds the extracted limit, remaining
and reset-at values, its status field being left as it was. -/
theorem WithRatelimitData_frame
    (ExtractRateLimitData : Header → Except GoError RateLimitDescription)
    (resp : WrapperResponse) (d : RateLimitDescription) :
    (∀ err, ExtractRateLimitData resp.Header = .error err →
      WithRatelimitData ExtractRateLimitData resp d = ((resp, d), some err)) ∧
    (∀ rl, ExtractRateLimitData resp.Header = .ok rl →
      (WithRatelimitData ExtractRateLimitData resp d).2 = none ∧
      (WithRatelimitData ExtractRateLimitData resp d).1.1 = resp ∧
      (WithRatelimitData ExtractRateLimitData resp d).1.2.Limit = rl.Limit ∧
      (WithRatelimitData ExtractRateLimitData resp d).1.2.Remaining = rl.Remaining ∧
      (WithRatelimitData ExtractRateLimitData resp d).1.2.ResetAt = rl.ResetAt ∧
      (WithRatelimitData ExtractRateLimitData resp d).1.2.Status = d.Status) := by
  constructor
  · intro err h
    simp [WithRatelimitData, h]
  · intro rl h
    simp [WithRatelimitData, h]

/-- C9, at concrete inputs: a response without headers, on which the extractor fails, and a
response with a header, on which it reports limit 100, remaining 42 and a reset time. -/
theorem WithRatelimitData_frame_witness :
    WithRatelimitData extractFixed ⟨∅, "", "200 OK", 200⟩ ⟨0, 7, 7, none⟩ =
      ((⟨∅, "", "200 OK", 200⟩, ⟨0, 7, 7, none⟩),
        some (GoError.errorString "strconv.ParseInt: invalid syntax")) ∧
    (WithRatelimitData extractFixed (snapshot (received 200 "text/plain" "") "")
      ⟨0, 7, 7, none⟩).1.2 = ⟨0, 100, 42, some ⟨1700000000, 0⟩⟩ := by
  refine ⟨(WithRatelimitData_frame extractFixed ⟨∅, "", "200 OK", 200⟩ ⟨0, 7, 7, none⟩).1 _ rfl,
    ?_⟩
  obtain ⟨_, _, h3, h4, h5, h6⟩ :=
    (WithRatelimitData_frame extractFixed (snapshot (received 200 "text/plain" "") "")
      ⟨0, 7, 7, none⟩).2 _ rfl
  rfl

theorem foldl_insert_lookup {α γ : Type} (f : String → String) (g : α → γ)
    (l : List (String × α)) (hnd : (l.map Prod.fst).Nodup) (hf : ∀ p ∈ l, f p.1 = p.1)
    (M : GoMap γ) (k : String) :
    (∀ v, (k, v) ∈ l →
      (l.foldl (fun m kv => AList.insert (f kv.1) (g kv.2) m) M).lookup k = some (g v)) ∧
    (k ∉ l.map Prod.fst →
      (l.foldl (fun m kv => AList.insert (f kv.1) (g kv.2) m) M).lookup k = M.lookup k) := by
  induction l generalizing M with
  | nil => simp
  | cons p t ih =>
    obtain ⟨k0, v0⟩ := p
    simp only [List.map_cons, List.nodup_cons] at hnd
    obtain ⟨hk0, hnt⟩ := hnd
    have hft : ∀ q ∈ t, f q.1 = q.1 := fun q hq => hf q (List.mem_cons_of_mem _ hq)
    have hf0 : f k0 = k0 := hf (k0, v0) (List.mem_cons_self _ _)
    obtain ⟨ih1, ih2⟩ := ih hnt hft (AList.insert (f k0) (g v0) M)
    simp only [List.foldl_cons]
    constructor
    · intro v hv
      rcases List.mem_cons.1 hv with h | h
      · obtain ⟨rfl, rfl⟩ := Prod.mk.injEq _ _ _ _ ▸ h
        rw [ih2 hk0, hf0, AList.lookup_insert]
      · exact ih1 v h
    · intro hk
      simp only [List.map_cons, List.mem_cons, not_or] at hk
      rw [ih2 hk.2, hf0, AList.lookup_insert_ne hk.1]

theorem range_foldl_lookup {γ : Type} (order : List (String × String) → List (String × String))
    (horder : ∀ l, (order l).Perm l) (f : String → String) (g : String → γ)
    (m : GoMap String) (hf : ∀ k ∈ m.keys, f k = k) (M : GoMap γ) (k : String) :
    ((rangeMap order m).foldl (fun m kv => AList.insert (f kv.1) (g kv.2) m) M).lookup k =
      match m.lookup k with
      | some v => some (g v)
      | none => M.lookup k := by
  have hperm := horder (m.entries.map (fun e => (e.1, e.2)))
  have hkeys : (m.entries.map (fun e => (e.1, e.2))).map Prod.fst = m.keys := by
    simp [AList.keys, List.keys, List.map_map, Function.comp_def]
  have hnd : ((rangeMap order m).map Prod.fst).Nodup := by
    have := (hperm.map Prod.fst).nodup_iff.2 (by rw [hkeys]; exact m.keys_nodup)
    exact this
  have hmem : ∀ kv, kv ∈ rangeMap order m ↔ m.lookup kv.1 = some kv.2 := by
    intro kv
    rw [rangeMap, hperm.mem_iff, ← Option.mem_def, AList.mem_lookup_iff]
    constructor
    · intro h
      obtain ⟨e, he, rfl⟩ := List.mem_map.1 h
      exact he
    · intro h
      exact List.mem_map.2 ⟨_, h, rfl⟩
  have hf2 : ∀ p ∈ rangeMap order m, f p.1 = p.1 := by
    intro p hp
    apply hf
    have := (hmem p).1 hp
    rw [← AList.mem_keys, ← AList.lookup_isSome, this]
    rfl
  obtain ⟨h1, h2⟩ := foldl_insert_lookup f g (rangeMap order m) hnd hf2 M k
  cases hm : m.lookup k with
  | some v => exact h1 v ((hmem (k, v)).2 hm)
  | none =>
    apply h2
    intro hk
    obtain ⟨p, hp, rfl⟩ := List.mem_map.1 hk
    have := (hmem p).1 hp
    rw [hm] at this
    cases this

theorem lastHeader_some {β : Type} (outs : List (Option β × GoMap String × Option GoError))
    (k v : String) (h : lastHeader outs k = some v) :
    ∃ out ∈ outs, out.2.1.lookup k = some v := by
  induction outs with
  | nil => simp [lastHeader] at h
  | cons out rest ih =>
    simp only [lastHeader] at h
    cases hr : lastHeader rest k with
    | some w =>
      rw [hr] at h
      obtain ⟨o, ho, hl⟩ := ih (by rw [hr]; exact h)
      exact ⟨o, List.mem_cons_of_mem _ ho, hl⟩
    | none =>
      rw [hr] at h
      exact ⟨out, List.mem_cons_self _ _, h⟩

theorem NewRequest_loop_ok {σ β : Type} (order : List (String × String) → List (String × String))
    (horder : ∀ l, (order l).Perm l) (options : List (RequestOption σ β)) (s : σ)
    (buffer : Option β) (headers : GoMap String)
    (hok : ∀ out ∈ evalOptions options s, out.2.2 = none) :
    ∃ H, NewRequest.loop order options s buffer headers =
        (evalState options s,
          .ok ((match lastBody (evalOptions options s) with
                | some b => some b
                | none => buffer), H)) ∧
      ∀ k, H.lookup k =
        match lastHeader (evalOptions options s) k with
        | some v => some v
        | none => headers.lookup k := by
  induction options generalizing s buffer headers with
  | nil => exact ⟨headers, rfl, fun k => rfl⟩
  | cons o rest ih =>
    have h0 : (o s).2.2.2 = none := hok _ (List.mem_cons_self _ _)
    have hrest : ∀ out ∈ evalOptions rest (o s).1, out.2.2 = none :=
      fun out hout => hok out (List.mem_cons_of_mem _ hout)
    have e : o s = ((o s).1, ((o s).2.1, (o s).2.2.1, none)) := by
      rw [← h0]
    obtain ⟨H, hH, hl⟩ := ih (o s).1
      (match (o s).2.1 with
       | some b => some b
       | none => buffer)
      ((rangeMap order (o s).2.2.1).foldl (fun m kv => AList.insert kv.1 kv.2 m) headers) hrest
    refine ⟨H, ?_, ?_⟩
    · simp only [NewRequest.loop, evalState, evalOptions, lastBody]
      rw [e]
      simp only []
      rw [hH]
      cases lastBody (evalOptions rest (o s).1) <;> rfl
    · intro k
      rw [hl k]
      simp only [evalOptions, lastHeader]
      cases lastHeader (evalOptions rest (o s).1) k with
      | some v => rfl
      | none =>
        exact range_foldl_lookup order horder id id (o s).2.2.1 (fun _ _ => rfl) headers k

theorem NewRequest_loop_fail {σ β : Type}
    (order : List (String × String) → List (String × String))
    (pre : List (RequestOption σ β)) (o : RequestOption σ β) (post : List (RequestOption σ β))
    (s : σ) (buffer : Option β) (headers : GoMap String) (err : GoError)
    (hpre : ∀ out ∈ evalOptions pre s, out.2.2 = none)
    (ho : (o (evalState pre s)).2.2.2 = some err) :
    NewRequest.loop order (pre ++ o :: post) s buffer headers =
      ((o (evalState pre s)).1, .error err) := by
  induction pre generalizing s buffer headers with
  | nil =>
    simp only [evalState] at ho
    have e : o s = ((o s).1, ((o s).2.1, (o s).2.2.1, some err)) := by
      rw [← ho]
    simp only [List.nil_append, NewRequest.loop, evalState]
    rw [e]
  | cons p rest ih =>
    have h0 : (p s).2.2.2 = none := hpre _ (List.mem_cons_self _ _)
    have hrest : ∀ out ∈ evalOptions rest (p s).1, out.2.2 = none :=
      fun out hout => hpre out (List.mem_cons_of_mem _ hout)
    have e : p s = ((p s).1, ((p s).2.1, (p s).2.2.1, none)) := by
      rw [← h0]
    simp only [List.cons_append, NewRequest.loop, evalState]
    rw [e]
    exact ih _ _ _ hrest ho

/-- C5: when the options of `pre` return no error and the next option `o` returns the error
`err`, `NewRequest` returns no request and `err`, and leaves the options' variables as they
are after evaluating the options of `pre` in order and then `o`: no option of `post` is
evaluated. -/
theorem NewRequest_first_failure {σ β : Type}
    (order : List (String × String) → List (String × String))
    (validate : String → String → Option GoError) (method url : String)
    (pre : List (RequestOption σ β)) (o : RequestOption σ β) (post : List (RequestOption σ β))
    (s : σ) (err : GoError)
    (hpre : ∀ out ∈ evalOptions pre s, out.2.2 = none)
    (ho : (o (evalState pre s)).2.2.2 = some err) :
    NewRequest order validate method url (pre ++ o :: post) s =
      ((o (evalState pre s)).1, none, some err) := by
  simp only [NewRequest]
  rw [NewRequest_loop_fail order pre o post s none ∅ err hpre ho]

/-- C1, as amended: when every request option succeeds, every header key that an option
supplies is in canonical MIME form, and the standard constructor accepts the method and the
URL, `NewRequest` returns a request whose header holds, for every key supplied by some option,
exactly the value given by the last option supplying it, and no other key, and whose body is
the body of the last option returning one (absent when none does); this holds for every order
in which the maps are traversed. -/
theorem NewRequest_last_writer {σ β : Type}
    (order : List (String × String) → List (String × String))
    (horder : ∀ l, (order l).Perm l)
    (validate : String → String → Option GoError) (method url : String)
    (options : List (RequestOption σ β)) (s : σ)
    (hvalid : validate method url = none)
    (hok : ∀ out ∈ evalOptions options s, out.2.2 = none)
    (hcanon : ∀ out ∈ evalOptions options s, ∀ k ∈ out.2.1.keys, CanonicalMIMEHeaderKey k = k) :
    ∃ req, NewRequest order validate method url options s =
        (evalState options s, some req, none) ∧
      (∀ k, req.Header.lookup k =
        (lastHeader (evalOptions options s) k).map (fun v => [v])) ∧
      req.Body = lastBody (evalOptions options s) := by
  obtain ⟨H, hH, hl⟩ := NewRequest_loop_ok order horder options s none ∅ hok
  have hHl : ∀ k, H.lookup k = lastHeader (evalOptions options s) k := by
    intro k
    rw [hl k]
    cases lastHeader (evalOptions options s) k <;> simp
  have hHc : ∀ k ∈ H.keys, CanonicalMIMEHeaderKey k = k := by
    intro k hk
    rw [← AList.mem_keys, ← AList.lookup_isSome, hHl k] at hk
    obtain ⟨v, hv⟩ := Option.isSome_iff_exists.1 hk
    obtain ⟨out, hout, hlk⟩ := lastHeader_some _ k v hv
    apply hcanon out hout
    rw [← AList.mem_keys, ← AList.lookup_isSome, hlk]
    rfl
  refine ⟨{ Method := if method = "" then "GET" else method, URL := url,
             Header := (rangeMap order H).foldl (fun h kv => Header.Set h kv.1 kv.2) ∅,
             Body := lastBody (evalOptions options s) }, ?_, ?_, ?_⟩
  · simp only [NewRequest, hH, NewRequestWithContext, hvalid]
    cases lastBody (evalOptions options s) <;> rfl
  · intro k
    have := range_foldl_lookup order horder CanonicalMIMEHeaderKey (fun v => [v]) H hHc ∅ k
    simp only [Header.Set]
    rw [this, hHl k]
    cases lastHeader (evalOptions options s) k <;> simp
  · rfl

/-- C1, the amended claim at a concrete input: an Accept header, a JSON body, and a later
option that overrides the Accept header and the body. -/
theorem NewRequest_last_writer_witness :
    ∃ req, NewRequest id acceptAll "POST" "https://example.test/api"
        [WithAcceptJSONHeader, WithJSONBody (.ok "first"),
         bodyOption "second" "Accept" "text/plain"] () = ((), some req, none) ∧
      req.Header.lookup "Accept" = some ["text/plain"] ∧
      req.Header.lookup "Content-Type" = some ["application/json"] ∧
      req.Header.lookup "X-Other" = none ∧
      req.Body = some "second" := by
  obtain ⟨req, h1, h2, h3⟩ := NewRequest_last_writer id (fun l => List.Perm.refl l) acceptAll
    "POST" "https://example.test/api"
    [WithAcceptJSONHeader, WithJSONBody (.ok "first"),
     bodyOption "second" "Accept" "text/plain"] () rfl (by decide) (by decide)
  refine ⟨req, h1, ?_, ?_, ?_, ?_⟩
  · rw [h2]; decide
  · rw [h2]; decide
  · rw [h2]; decide
  · rw [h3]; rfl

/-- C1 fails as stated. An option supplying the key `accept` yields a request that carries
nothing under `accept` and carries the value under `Accept`, a key that no option supplied.
And when one option supplies `accept` and a later one `Accept`, the value carried under
`Accept` depends on the order in which the map is traversed: in one order it is the value of
the earlier option. -/
theorem NewRequest_lowercase_key :
    (∃ req, NewRequest id acceptAll "GET" "https://example.test/api"
        [headerOption "accept" "application/json"] () = ((), some req, none) ∧
      lastHeader (evalOptions [headerOption "accept" "application/json"] ()) "accept"
        = some "application/json" ∧
      req.Header.lookup "accept" = none ∧
      lastHeader (evalOptions [headerOption "accept" "application/json"] ()) "Accept" = none ∧
      req.Header.lookup "Accept" = some ["application/json"]) ∧
    (∃ req₁ req₂,
      NewRequest id acceptAll "GET" "https://example.test/api"
        [headerOption "accept" "a", headerOption "Accept" "b"] () = ((), some req₁, none) ∧
      NewRequest List.reverse acceptAll "GET" "https://example.test/api"
        [headerOption "accept" "a", headerOption "Accept" "b"] () = ((), some req₂, none) ∧
      req₁.Header.Get "Accept" = "a" ∧ req₂.Header.Get "Accept" = "b") :=
  ⟨⟨_, rfl, by decide, by decide, by decide, by decide⟩, ⟨_, _, rfl, rfl, by decide, by decide⟩⟩

/-- C5, at a concrete input: three logging options of which the second fails; the log holds
the first two options only and no request is returned. -/
theorem NewRequest_first_failure_witness :
    NewRequest id acceptAll "GET" "https://example.test/api"
        [logRequestOption 1 none, logRequestOption 2 (some (GoError.errorString "encode")),
         logRequestOption 3 none] [] =
      ([1, 2], none, some (GoError.errorString "encode")) :=
  NewRequest_first_failure id acceptAll "GET" "https://example.test/api"
    [logRequestOption 1 none] (logRequestOption 2 (some (GoError.errorString "encode")))
    [logRequestOption 3 none] [] (GoError.errorString "encode") (by decide) rfl

end Uhttp
